import Mathlib

/-!
Verification of the FT8PYCLI sniper-mode pipeline (`sniper_verify.py`).

The Python source is embedded shallowly: pure numeric code becomes functions
over `ℚ` / `ℤ` / `Nat`, raised exceptions become `Except`, side effects of the
decode orchestrator (logging, printing, temp-file handling) become fields of an
explicit outcome record.  Third-party signal-processing routines that the
script calls (`scipy.signal.filtfilt`, `scipy.signal.resample`) are not part of
this repository; where a claim depends on them they are modelled from the
spec, as marked in the doc comments.
-/

namespace FT8Sniper

/-! ## Audio loader (`load_wav`, sniper_verify.py lines 37-76) -/

/-- Stride-2 selection `samples[::2]` from numpy: keeps the even-indexed
elements of a list. -/
def evens {α : Type} : List α → List α
  | [] => []
  | [a] => [a]
  | a :: _ :: rest => a :: evens rest

/-- A WAV file as the loader observes it: existence flag, header fields read
via the `wave` module, and the raw integer samples that `np.frombuffer`
produces from the frame bytes (interleaved when stereo). -/
structure WavFile where
  present : Bool
  channels : Nat
  width : Nat
  framerate : Nat
  nframes : Nat
  data : List ℤ

/-- Raw-integer-to-float conversion of `load_wav`: 8-bit (width 1) maps `v` to
`(v - 128)/128`, 16-bit (width 2) maps `v` to `v/32768`. -/
def convertSample (width : Nat) (v : ℤ) : ℚ :=
  if width = 1 then ((v : ℚ) - 128) / 128 else (v : ℚ) / 32768

/-- Body of the `try:` block of `load_wav`: raises (returns `Except.error`) on a
sample width other than 1 or 2 bytes, otherwise converts to floats and keeps
the left channel of stereo data. -/
def loadWavTry (w : WavFile) : Except String (List ℚ × Nat × Nat) :=
  if w.width ≠ 1 ∧ w.width ≠ 2 then
    Except.error ("Only 8 or 16 bit audio supported")
  else
    let samples := w.data.map (convertSample w.width)
    let samples := if w.channels = 2 then evens samples else samples
    Except.ok (samples, w.framerate, w.nframes)

/-- Full `load_wav`: a missing file yields `none` (the `(None, None, None)`
return), and the catch-all `except Exception` converts any raised error into
a logged message plus the same `none` triple. -/
def loadWav (w : WavFile) : Option (List ℚ × Nat × Nat) :=
  if w.present = false then none
  else
    match loadWavTry w with
    | Except.ok r => some r
    | Except.error _ => none

/-! ## Filter designer (`apply_bandpass_filter`, lines 78-89) -/

/-- Cutoff computation and clamping of `apply_bandpass_filter`:
`nyquist = 0.5 * rate`, `low = (center - bw/2)/nyquist`,
`high = (center + bw/2)/nyquist`, then `if low <= 0: low = 0.001` and
`if high >= 1: high = 0.999`. -/
def butterCutoffs (rate center bw : ℚ) : ℚ × ℚ :=
  let nyquist := rate / 2
  let low := (center - bw / 2) / nyquist
  let high := (center + bw / 2) / nyquist
  let low := if low ≤ 0 then 1 / 1000 else low
  let high := if 1 ≤ high then 999 / 1000 else high
  (low, high)

/-! ## Zero-phase filter application

Modelled from the spec: `scipy.signal.filtfilt` is external to this
repository.  The spec describes it as zero-phase (forward-then-time-reversed)
application of the designed IIR filter; we model the direct-form IIR recursion
(with normalized leading denominator coefficient, as `butter` returns) and the
forward-backward composition. -/

/-- Dot product of a coefficient list against the most recent history values
(missing history is implicitly zero, matching initial rest of the filter). -/
def dotCoeffs (cs : List ℚ) (hist : List ℚ) : ℚ :=
  (List.zip cs hist).foldl (fun acc p => acc + p.1 * p.2) 0

/-- One-direction IIR filter recursion:
`y[n] = Σ b[i]·x[n-i] - Σ a1[j]·y[n-1-j]` where `a1` is the denominator tail.
`xh`/`yh` hold past inputs/outputs, most recent first. -/
def lfilterGo (b a1 : List ℚ) : List ℚ → List ℚ → List ℚ → List ℚ
  | _, _, [] => []
  | xh, yh, x :: xs =>
    let y := dotCoeffs b (x :: xh) - dotCoeffs a1 yh
    y :: lfilterGo b a1 (x :: xh) (y :: yh) xs

/-- Direct-form IIR filter with numerator `b` and denominator `a`
(leading coefficient of `a` normalized to 1). -/
def lfilter (b a : List ℚ) (x : List ℚ) : List ℚ :=
  lfilterGo b a.tail [] [] x

/-- Modelled from the spec: zero-phase filtering = filter forward, reverse,
filter again, reverse back (`scipy.signal.filtfilt` without edge padding). -/
def filtfilt (b a : List ℚ) (x : List ℚ) : List ℚ :=
  (lfilter b a (lfilter b a x).reverse).reverse

/-! ## Audio writer conversion (`save_wav`, lines 100-111) -/

/-- Truncation toward zero, as the C cast in `astype(np.int16)` performs on
the (exactly modelled) product. -/
def ratTrunc (q : ℚ) : ℤ := if 0 ≤ q then ⌊q⌋ else ⌈q⌉

/-- Wraparound of an integer into the int16 range, modulo 2^16. -/
def wrapInt16 (t : ℤ) : ℤ := (t + 32768) % 65536 - 32768

/-- The float-to-PCM conversion `(samples * 32767).astype(np.int16)` applied
to one sample: multiply by 32767, truncate toward zero, wrap modulo 2^16. -/
def saveConvert (q : ℚ) : ℤ := wrapInt16 (ratTrunc (q * 32767))

/-- The nearest int16 value to a real-valued target amplitude (rounding, then
saturating at the type bounds): the reference against which the cast's lack of
clipping is judged. -/
def nearestInt16 (x : ℚ) : ℤ := max (-32768) (min 32767 (round x))

/-! ## Rate adapter and decode orchestrator (`run_decoder`, lines 116-170) -/

/-- The new sample count `int(len(samples) * 12000 / rate)` computed by
`run_decoder`: Python `int()` truncates the quotient toward zero, which for
nonnegative values is floor division. -/
def resampledCount (len rate : Nat) : Nat := len * 12000 / rate

/-- Modelled from the spec: `scipy.signal.resample` is external to this
repository; the spec says it is a spectral method returning exactly the
requested number of samples.  Only the returned count is observable in the
claims, so values are modelled by index lookup with zero fill. -/
def resample (samples : List ℚ) (num : Nat) : List ℚ :=
  (List.range num).map (fun i => samples.getD i 0)

/-- The rate-adaptation step of `run_decoder`: when the rate differs from
12000 Hz, resample to `resampledCount` samples and continue at 12000 Hz;
otherwise pass the buffer through unchanged. -/
def rateAdapt (samples : List ℚ) (rate : Nat) : List ℚ × Nat :=
  if rate ≠ 12000 then
    (resample samples (resampledCount samples.length rate), 12000)
  else (samples, rate)

/-- Observable outcome of one `run_decoder` call: the messages printed in the
results report, whether that report was printed, whether an error was logged
and a traceback printed, whether an exception escaped the function, whether
the in-memory decoder entry point was invoked, and whether any temporary file
was created. -/
structure DecodeOutcome where
  messages : List String
  reportPrinted : Bool
  errorLogged : Bool
  tracebackPrinted : Bool
  raised : Bool
  usedInMemory : Bool
  tempFileCreated : Bool
  deriving DecidableEq

/-- The decode orchestration of `run_decoder`: adapt the rate, then call the
in-memory decoder entry point `ft8.extract(samples, 0, len(samples), 0)`
inside a `try:`; on success print the report with the returned messages, on
any decoder exception log the error with a traceback and return normally with
nothing reported.  The decoder collaborator is a parameter returning
`Except` (an `Except.error` is a raised exception). -/
def runDecoder (extract : List ℚ → Nat → Nat → Nat → Except String (List String))
    (samples : List ℚ) (rate : Nat) : DecodeOutcome :=
  let adapted := (rateAdapt samples rate).1
  match extract adapted 0 adapted.length 0 with
  | Except.ok msgs =>
      { messages := msgs, reportPrinted := true, errorLogged := false,
        tracebackPrinted := false, raised := false, usedInMemory := true,
        tempFileCreated := false }
  | Except.error _ =>
      { messages := [], reportPrinted := false, errorLogged := true,
        tracebackPrinted := true, raised := false, usedInMemory := true,
        tempFileCreated := false }

/-! ## Output naming (`main`, lines 192-194) -/

/-- Whether `pat` is an initial segment of `s`. -/
def startsWith : List Char → List Char → Bool
  | [], _ => true
  | _ :: _, [] => false
  | p :: ps, c :: cs => (p == c) && startsWith ps cs

/-- Worker for `replaceAll`, structurally recursive on a fuel argument that is
at least the length of the remaining string (each step consumes at least one
character, so the fuel never runs out on the intended calls). -/
def replaceAllGo (pat rep : List Char) : Nat → List Char → List Char
  | _, [] => []
  | 0, s => s
  | Nat.succ fuel, c :: rest =>
    if pat ≠ [] ∧ startsWith pat (c :: rest) = true then
      rep ++ replaceAllGo pat rep fuel (List.drop (pat.length - 1) rest)
    else
      c :: replaceAllGo pat rep fuel rest

/-- Python `str.replace(pat, rep)`: replace every non-overlapping occurrence
of `pat`, scanning left to right. -/
def replaceAll (pat rep s : List Char) : List Char :=
  replaceAllGo pat rep s.length s

/-- The `--save-filtered` output name:
`args.wav_file.replace(".wav", f"_filtered_\x7bargs.freq\x7dHz.wav")`. -/
def outName (wavFile : List Char) (freq : ℤ) : List Char :=
  replaceAll (".wav").data (("_filtered_" ++ toString freq ++ "Hz.wav")).data wavFile

/-! ## Concrete collaborators and inputs used in witnesses and counterexamples -/

/-- A decoder collaborator whose decode attempt raises on every buffer. -/
def failExtract (_ : List ℚ) (_ _ _ : Nat) : Except String (List String) :=
  Except.error ("boom")

/-- A decoder module that does not expose the in-memory entry point: the
attribute lookup `ft8.extract` itself raises. -/
def noInMemoryExtract (_ : List ℚ) (_ _ _ : Nat) : Except String (List String) :=
  Except.error ("AttributeError: module ft8 has no attribute extract")

/-- An existing 24-bit (width 3) mono file. -/
def badWidthFile : WavFile := ⟨true, 1, 3, 8000, 4, [0, 0, 0, 0]⟩

/-- An existing 16-bit mono file with three frames. -/
def monoFile : WavFile := ⟨true, 1, 2, 12000, 3, [0, 100, -32768]⟩

/-- An existing 16-bit stereo file with two frames (four interleaved raw
samples). -/
def stereoFile : WavFile := ⟨true, 2, 2, 48000, 2, [1, 2, 3, 4]⟩

/-! ## Helper lemmas -/

theorem resample_length (samples : List ℚ) (num : Nat) :
    (resample samples num).length = num := by
  simp [resample]

theorem lfilterGo_length (b a1 : List ℚ) (xs : List ℚ) :
    ∀ xh yh : List ℚ, (lfilterGo b a1 xh yh xs).length = xs.length := by
  induction xs with
  | nil => intro xh yh; rfl
  | cons x xs ih => intro xh yh; simp only [lfilterGo, List.length_cons, ih]

theorem lfilter_length (b a : List ℚ) (x : List ℚ) :
    (lfilter b a x).length = x.length := by
  simp [lfilter, lfilterGo_length]

theorem evens_length {α : Type} : ∀ l : List α, (evens l).length = (l.length + 1) / 2
  | [] => by simp [evens]
  | [_] => by simp [evens]
  | _ :: _ :: rest => by
    simp only [evens, List.length_cons, evens_length rest]
    omega

theorem evens_getElem? {α : Type} : ∀ (l : List α) (i : Nat), (evens l)[i]? = l[2 * i]?
  | [], i => by simp [evens]
  | [a], 0 => by simp [evens]
  | [a], n + 1 => by
    have h2 : 2 * (n + 1) = 2 * n + 1 + 1 := by ring
    simp [evens, h2]
  | a :: b :: rest, 0 => by simp [evens]
  | a :: b :: rest, n + 1 => by
    have h2 : 2 * (n + 1) = 2 * n + 1 + 1 := by ring
    simp only [evens, h2, List.getElem?_cons_succ, evens_getElem? rest n]

theorem startsWith_self : ∀ l : List Char, startsWith l l = true
  | [] => rfl
  | c :: cs => by simp [startsWith, startsWith_self cs]

theorem replaceAllGo_stem_append (pat rep : List Char) (hpat : pat ≠ []) :
    ∀ (stem : List Char) (fuel : Nat), (stem ++ pat).length ≤ fuel →
      (∀ i, i < stem.length → startsWith pat (List.drop i (stem ++ pat)) = false) →
      replaceAllGo pat rep fuel (stem ++ pat) = stem ++ rep := by
  intro stem
  induction stem with
  | nil =>
    intro fuel hfuel _
    obtain ⟨p, ps, rfl⟩ : ∃ p ps, pat = p :: ps := by
      cases pat with
      | nil => exact absurd rfl hpat
      | cons p ps => exact ⟨p, ps, rfl⟩
    obtain ⟨f, rfl⟩ : ∃ f, fuel = f + 1 := by
      cases fuel with
      | zero => simp at hfuel
      | succ f => exact ⟨f, rfl⟩
    simp only [List.nil_append, replaceAllGo, List.length_cons,
      Nat.add_sub_cancel, List.drop_length]
    rw [if_pos ⟨hpat, startsWith_self _⟩]
    cases f <;> simp [replaceAllGo]
  | cons c stem ih =>
    intro fuel hfuel hocc
    obtain ⟨f, rfl⟩ : ∃ f, fuel = f + 1 := by
      cases fuel with
      | zero => simp at hfuel
      | succ f => exact ⟨f, rfl⟩
    have h0 := hocc 0 (by simp)
    rw [List.drop_zero, List.cons_append] at h0
    simp only [List.cons_append, replaceAllGo, List.append_eq]
    rw [if_neg ?hneg]
    case hneg =>
      rintro ⟨-, hs⟩
      rw [h0] at hs
      exact absurd hs (by simp)
    rw [ih f ?hf ?ho]
    case hf =>
      simp only [List.length_append, List.length_cons] at hfuel ⊢
      omega
    case ho =>
      intro i hi
      have hstep := hocc (i + 1) (by simp only [List.length_cons]; omega)
      rw [List.cons_append, List.drop_succ_cons] at hstep
      exact hstep

theorem replaceAll_stem_append (pat rep stem : List Char) (hpat : pat ≠ [])
    (hocc : ∀ i, i < stem.length → startsWith pat (List.drop i (stem ++ pat)) = false) :
    replaceAll pat rep (stem ++ pat) = stem ++ rep :=
  replaceAllGo_stem_append pat rep hpat stem (stem ++ pat).length le_rfl hocc

theorem filtered_suffix_ne_wav (freq : ℤ) :
    ("_filtered_" ++ toString freq ++ "Hz.wav").data ≠ (".wav").data := by
  intro h
  have h0 := congrArg (fun l => l[0]?) h
  simp only [String.data_append] at h0
  simp at h0

/-! ## Claims -/

/-- C1: for every buffer handed to `run_decoder`, if the decoder's decode
attempt raises an exception, the orchestrator catches it, logs it with a
traceback (full context), reports zero messages, and lets no exception escape
the function. -/
theorem decoder_error_isolated
    (extract : List ℚ → Nat → Nat → Nat → Except String (List String))
    (samples : List ℚ) (rate : Nat) (e : String)
    (hfail : extract (rateAdapt samples rate).1 0 (rateAdapt samples rate).1.length 0
      = Except.error e) :
    (runDecoder extract samples rate).messages = [] ∧
    (runDecoder extract samples rate).errorLogged = true ∧
    (runDecoder extract samples rate).tracebackPrinted = true ∧
    (runDecoder extract samples rate).raised = false := by
  simp [runDecoder, hfail]

/-- Witness for C1: a decoder that always raises, on the empty buffer at
12000 Hz. -/
theorem decoder_error_isolated_witness :
    failExtract (rateAdapt [] 12000).1 0 (rateAdapt [] 12000).1.length 0
        = Except.error ("boom") ∧
    (runDecoder failExtract [] 12000).messages = [] ∧
    (runDecoder failExtract [] 12000).errorLogged = true ∧
    (runDecoder failExtract [] 12000).raised = false := by
  have h := decoder_error_isolated failExtract [] 12000 ("boom") rfl
  exact ⟨rfl, h.1, h.2.1, h.2.2.2⟩

/-- C2 counterexample: for 3 samples at 44100 Hz the code computes
`int(3 * 12000 / 44100) = 0` resampled samples, whereas rounding as the claim
states would give `round(0.816...) = 1`. -/
theorem rate_adapter_round_cex :
    (rateAdapt [0, 0, 0] 44100).1.length = 0 ∧
    round ((3 * 12000 : ℚ) / 44100) = 1 ∧ (0 : ℤ) ≠ 1 := by
  refine ⟨by decide, ?_, by decide⟩
  rw [round_eq]
  norm_num

/-- C2 amended: the rate adapter resamples exactly when the rate differs from
12000 Hz, and the resampled length is the truncation (floor) of
`L * 12000 / R`, not its rounding; at 12000 Hz the buffer passes through
unchanged. -/
theorem rate_adapter_truncates (samples : List ℚ) (rate : Nat) :
    (rate ≠ 12000 →
      (rateAdapt samples rate).1.length = samples.length * 12000 / rate ∧
      (rateAdapt samples rate).2 = 12000) ∧
    (rate = 12000 → rateAdapt samples rate = (samples, rate)) := by
  constructor
  · intro h
    simp [rateAdapt, h, resample_length, resampledCount]
  · intro h
    simp [rateAdapt, h]

/-- Witness for C2 (amended) at 3 samples and 44100 Hz. -/
theorem rate_adapter_truncates_witness :
    44100 ≠ 12000 ∧
    (rateAdapt [(0 : ℚ), 0, 0] 44100).1.length = [(0 : ℚ), 0, 0].length * 12000 / 44100 :=
  ⟨by decide, ((rate_adapter_truncates [0, 0, 0] 44100).1 (by decide)).1⟩

/-- C3 counterexample: on an existing file of width 3 bytes the loader's
`try` body does raise the unsupported-format error, but `load_wav` itself
returns the ordinary null triple: the exception is handled inside the loader
and never surfaced to the caller. -/
theorem load_unsupported_cex :
    loadWavTry badWidthFile = Except.error ("Only 8 or 16 bit audio supported") ∧
    loadWav badWidthFile = none :=
  ⟨rfl, rfl⟩

/-- C3 amended: for every existing input whose width is neither 8 nor 16
bits, the unsupported-format error is raised at load time but caught by the
loader's own catch-all handler, which logs it and returns a null result to
the caller instead of propagating the exception. -/
theorem load_unsupported_caught (w : WavFile)
    (hp : w.present = true) (h1 : w.width ≠ 1) (h2 : w.width ≠ 2) :
    loadWavTry w = Except.error ("Only 8 or 16 bit audio supported") ∧
    loadWav w = none := by
  have htry : loadWavTry w = Except.error ("Only 8 or 16 bit audio supported") := by
    simp [loadWavTry, h1, h2]
  exact ⟨htry, by simp [loadWav, hp, htry]⟩

/-- Witness for C3 (amended) at the width-3 file. -/
theorem load_unsupported_caught_witness :
    badWidthFile.present = true ∧ badWidthFile.width ≠ 1 ∧ badWidthFile.width ≠ 2 ∧
    loadWav badWidthFile = none :=
  ⟨rfl, by decide, by decide,
    (load_unsupported_caught badWidthFile rfl (by decide) (by decide)).2⟩

/-- C4 counterexample: at rate 12000 Hz, center 7000 Hz, bandwidth 100 Hz the
requested low edge lies beyond Nyquist, the clamp `if low <= 0` does not
fire, and the computed low cutoff exceeds 1 — it does not lie in (0,1). -/
theorem cutoff_clamp_cex : 1 < (butterCutoffs 12000 7000 100).1 := by
  norm_num [butterCutoffs]

/-- C4 amended: the designer computes `low`/`high` against Nyquist and clamps
`low` up to 0.001 and `high` down to 0.999; both results lie strictly inside
(0,1) provided the requested low edge is below Nyquist and the requested
high edge is above zero, and whenever `center - bw/2 ≤ 0` the low cutoff
equals 0.001 (hence is never ≤ 0). -/
theorem cutoff_clamping (rate center bw : ℚ)
    (hrate : 0 < rate)
    (hlowEdge : center - bw / 2 < rate / 2)
    (hhighEdge : 0 < center + bw / 2) :
    (0 < (butterCutoffs rate center bw).1 ∧ (butterCutoffs rate center bw).1 < 1) ∧
    (0 < (butterCutoffs rate center bw).2 ∧ (butterCutoffs rate center bw).2 < 1) ∧
    (center - bw / 2 ≤ 0 → (butterCutoffs rate center bw).1 = 1 / 1000) := by
  have hnyq : 0 < rate / 2 := by linarith
  have hfst : (butterCutoffs rate center bw).1
      = if (center - bw / 2) / (rate / 2) ≤ 0 then 1 / 1000
        else (center - bw / 2) / (rate / 2) := by
    simp [butterCutoffs]
  have hsnd : (butterCutoffs rate center bw).2
      = if 1 ≤ (center + bw / 2) / (rate / 2) then 999 / 1000
        else (center + bw / 2) / (rate / 2) := by
    simp [butterCutoffs]
  refine ⟨?_, ?_, ?_⟩
  · rw [hfst]
    split_ifs with h
    · norm_num
    · push_neg at h
      exact ⟨h, (div_lt_one hnyq).mpr hlowEdge⟩
  · rw [hsnd]
    split_ifs with h
    · norm_num
    · push_neg at h
      exact ⟨div_pos hhighEdge hnyq, h⟩
  · intro h
    rw [hfst, if_pos]
    exact div_nonpos_iff.mpr (Or.inr ⟨h, le_of_lt hnyq⟩)

/-- Witness for C4 (amended): center 0 Hz, bandwidth 100 Hz at 12000 Hz — the
low edge is ≤ 0, so the low cutoff is clamped to 0.001 and is positive. -/
theorem cutoff_clamping_witness :
    (0 : ℚ) < 12000 ∧ (0 : ℚ) - 100 / 2 ≤ 0 ∧
    (butterCutoffs 12000 0 100).1 = 1 / 1000 ∧ 0 < (butterCutoffs 12000 0 100).1 := by
  refine ⟨by norm_num, by norm_num, ?_, ?_⟩
  · exact (cutoff_clamping 12000 0 100 (by norm_num) (by norm_num) (by norm_num)).2.2
      (by norm_num)
  · exact (cutoff_clamping 12000 0 100 (by norm_num) (by norm_num) (by norm_num)).1.1

/-- C5: applying the zero-phase (forward-then-time-reversed) filter produces
an output whose length equals the input length, for every coefficient pair
and every input sequence. -/
theorem filtfilt_length (b a x : List ℚ) : (filtfilt b a x).length = x.length := by
  simp [filtfilt, lfilter_length]

/-- C6: a valid 16-bit mono file loads each raw sample `v` as `v/32768`, the
loaded count equals the frame count, and every loaded sample lies in [-1,1];
an 8-bit mono file loads each raw sample `v` as `(v - 128)/128`. -/
theorem mono_sample_decoding (w : WavFile)
    (hp : w.present = true) (hc : w.channels = 1) :
    (w.width = 2 →
      loadWav w = some (w.data.map (fun v : ℤ => (v : ℚ) / 32768), w.framerate, w.nframes) ∧
      (w.data.length = w.nframes →
        (w.data.map (fun v : ℤ => (v : ℚ) / 32768)).length = w.nframes) ∧
      ((∀ v ∈ w.data, -32768 ≤ v ∧ v ≤ 32767) →
        ∀ s ∈ w.data.map (fun v : ℤ => (v : ℚ) / 32768), -1 ≤ s ∧ s ≤ 1)) ∧
    (w.width = 1 →
      loadWav w = some (w.data.map (fun v : ℤ => ((v : ℚ) - 128) / 128),
        w.framerate, w.nframes)) := by
  constructor
  · intro hw
    refine ⟨?_, ?_, ?_⟩
    · simp [loadWav, loadWavTry, hp, hw, hc, convertSample]
    · intro hlen
      simp [List.length_map, hlen]
    · intro hb s hs
      simp only [List.mem_map] at hs
      obtain ⟨v, hv, rfl⟩ := hs
      obtain ⟨hv1, hv2⟩ := hb v hv
      have h32 : (0 : ℚ) < 32768 := by norm_num
      constructor
      · rw [le_div_iff₀ h32]
        have : (-32768 : ℚ) ≤ (v : ℚ) := by exact_mod_cast hv1
        linarith
      · rw [div_le_one h32]
        have : ((v : ℚ)) ≤ 32767 := by exact_mod_cast hv2
        linarith
  · intro hw
    simp [loadWav, loadWavTry, hp, hw, hc, convertSample]

/-- Witness for C6 at a concrete three-frame 16-bit mono file. -/
theorem mono_sample_decoding_witness :
    monoFile.present = true ∧ monoFile.channels = 1 ∧ monoFile.width = 2 ∧
    loadWav monoFile
      = some (monoFile.data.map (fun v : ℤ => (v : ℚ) / 32768),
          monoFile.framerate, monoFile.nframes) :=
  ⟨rfl, rfl, rfl, ((mono_sample_decoding monoFile rfl rfl).1 rfl).1⟩

/-- C7: a stereo file whose interleaved raw data has length 2N loads to
exactly N samples, namely the even-indexed (left-channel) raw samples after
float conversion; the odd-indexed samples are discarded. -/
theorem stereo_left_channel (w : WavFile) (N : Nat)
    (hp : w.present = true) (hc : w.channels = 2)
    (hw : w.width = 1 ∨ w.width = 2)
    (hlen : w.data.length = 2 * N) :
    loadWav w = some (evens (w.data.map (convertSample w.width)),
      w.framerate, w.nframes) ∧
    (evens (w.data.map (convertSample w.width))).length = N ∧
    ∀ i : Nat, (evens (w.data.map (convertSample w.width)))[i]?
      = Option.map (convertSample w.width) w.data[2 * i]? := by
  refine ⟨?_, ?_, ?_⟩
  · have hne : ¬(w.width ≠ 1 ∧ w.width ≠ 2) := by
      rcases hw with h | h <;> simp [h]
    simp [loadWav, loadWavTry, hp, hc, hne]
  · rw [evens_length, List.length_map, hlen]
    omega
  · intro i
    rw [evens_getElem?, List.getElem?_map]

/-- Witness for C7 at a concrete two-frame stereo file. -/
theorem stereo_left_channel_witness :
    stereoFile.present = true ∧ stereoFile.channels = 2 ∧
    stereoFile.data.length = 2 * 2 ∧
    (evens (stereoFile.data.map (convertSample stereoFile.width))).length = 2 :=
  ⟨rfl, rfl, rfl, (stereo_left_channel stereoFile 2 rfl rfl (Or.inr rfl) rfl).2.1⟩

/-- C8 counterexample: with a decoder module that does not expose the
in-memory entry point (its attribute lookup raises), `run_decoder` does not
fall back to any file-based shape: no temporary file is created, the error is
logged and zero messages are reported. -/
theorem orchestrator_no_file_fallback_cex :
    (runDecoder noInMemoryExtract [1 / 2, 1 / 2] 12000).tempFileCreated = false ∧
    (runDecoder noInMemoryExtract [1 / 2, 1 / 2] 12000).messages = [] ∧
    (runDecoder noInMemoryExtract [1 / 2, 1 / 2] 12000).errorLogged = true :=
  ⟨rfl, rfl, rfl⟩

/-- C8 amended: the orchestrator implements only the in-memory decode shape,
invoking the decoder with (samples, 0, length, 0); no file-based temporary
file is ever created (so none needs deleting), and no exception escapes. -/
theorem orchestrator_in_memory_only
    (extract : List ℚ → Nat → Nat → Nat → Except String (List String))
    (samples : List ℚ) (rate : Nat) :
    (runDecoder extract samples rate).usedInMemory = true ∧
    (runDecoder extract samples rate).tempFileCreated = false ∧
    (runDecoder extract samples rate).raised = false := by
  cases h : extract (rateAdapt samples rate).1 0 (rateAdapt samples rate).1.length 0 <;>
    simp [runDecoder, h]

/-- C9 counterexample: for the input path `a.wav.wav` with frequency 1000 the
code replaces every occurrence of `.wav`, producing
`a_filtered_1000Hz.wav_filtered_1000Hz.wav` rather than inserting the suffix
before the final extension (`a.wav_filtered_1000Hz.wav`). -/
theorem save_filtered_name_cex :
    outName ("a.wav.wav").data 1000
        = ("a_filtered_1000Hz.wav_filtered_1000Hz.wav").data ∧
    outName ("a.wav.wav").data 1000 ≠ ("a.wav_filtered_1000Hz.wav").data :=
  ⟨by decide, by decide⟩

/-- C9 amended: the output name is the input path with every occurrence of
`.wav` replaced by `_filtered_<freq>Hz.wav`; when the path consists of a stem
followed by a single trailing `.wav` occurrence, this equals insertion of the
suffix before the extension and is distinct from the input path. -/
theorem save_filtered_name (stem : List Char) (freq : ℤ)
    (hocc : ∀ i, i < stem.length →
      startsWith (".wav").data (List.drop i (stem ++ (".wav").data)) = false) :
    outName (stem ++ (".wav").data) freq
      = stem ++ ("_filtered_" ++ toString freq ++ "Hz.wav").data ∧
    outName (stem ++ (".wav").data) freq ≠ stem ++ (".wav").data := by
  have heq : outName (stem ++ (".wav").data) freq
      = stem ++ ("_filtered_" ++ toString freq ++ "Hz.wav").data :=
    replaceAll_stem_append (".wav").data
      (("_filtered_" ++ toString freq ++ "Hz.wav")).data stem (by decide) hocc
  refine ⟨heq, ?_⟩
  rw [heq]
  intro hcontra
  exact filtered_suffix_ne_wav freq (List.append_cancel_left hcontra)

/-- Witness for C9 (amended) at the input path `audio.wav`, frequency 1000. -/
theorem save_filtered_name_witness :
    (∀ i, i < (("audio").data).length →
      startsWith (".wav").data
        (List.drop i (("audio").data ++ (".wav").data)) = false) ∧
    outName (("audio").data ++ (".wav").data) 1000
      = ("audio").data ++ ("_filtered_" ++ toString (1000 : ℤ) ++ "Hz.wav").data :=
  ⟨by decide, (save_filtered_name (("audio").data) 1000 (by decide)).1⟩

/-- C10 counterexample: the sample 65537/65536 overshoots 1, yet the written
PCM value 32767 is exactly the nearest representable amplitude — the claim
that overshoot samples are never written as the nearest amplitude fails. -/
theorem save_wav_nearest_cex :
    (1 : ℚ) < 65537 / 65536 ∧
    saveConvert (65537 / 65536) = nearestInt16 ((65537 / 65536) * 32767) := by
  refine ⟨by norm_num, ?_⟩
  have h1 : saveConvert (65537 / 65536) = 32767 := by
    norm_num [saveConvert, ratTrunc, wrapInt16]
  have h2 : nearestInt16 ((65537 / 65536) * 32767) = 32767 := by
    norm_num [nearestInt16, round_eq, min_def, max_def]
  rw [h1, h2]

/-- C10 amended: the writer multiplies by 32767 and casts without clipping or
rounding: on [-1,1] the written integer is the truncation toward zero of
`value * 32767` (within the int16 range); overshoot values wrap modulo 2^16
rather than saturate, so the written value can be far from the nearest
representable amplitude — at 1.25 the code writes -24578 where the nearest
amplitude is 32767. -/
theorem save_wav_conversion :
    (∀ q : ℚ, -1 ≤ q → q ≤ 1 →
      saveConvert q = ratTrunc (q * 32767) ∧
      -32767 ≤ saveConvert q ∧ saveConvert q ≤ 32767) ∧
    saveConvert (5 / 4) = -24578 ∧
    nearestInt16 ((5 / 4) * 32767) = 32767 ∧
    saveConvert (5 / 4) ≠ nearestInt16 ((5 / 4) * 32767) := by
  have hmain : ∀ q : ℚ, -1 ≤ q → q ≤ 1 →
      saveConvert q = ratTrunc (q * 32767) ∧
      -32767 ≤ saveConvert q ∧ saveConvert q ≤ 32767 := by
    intro q h1 h2
    have hx1 : (-32767 : ℚ) ≤ q * 32767 := by nlinarith
    have hx2 : q * 32767 ≤ 32767 := by nlinarith
    have htr : -32767 ≤ ratTrunc (q * 32767) ∧ ratTrunc (q * 32767) ≤ 32767 := by
      unfold ratTrunc
      split_ifs with h
      · constructor
        · have := Int.floor_nonneg.mpr h
          omega
        · have hf := Int.floor_mono hx2
          have hc : ⌊(32767 : ℚ)⌋ = 32767 := by norm_num
          omega
      · push_neg at h
        constructor
        · have hf := Int.ceil_mono hx1
          have hc : ⌈(-32767 : ℚ)⌉ = -32767 := by
            rw [show (-32767 : ℚ) = ((-32767 : ℤ) : ℚ) from by norm_num,
              Int.ceil_intCast]
          omega
        · have : ⌈q * 32767⌉ ≤ (0 : ℤ) := by
            rw [Int.ceil_le]
            exact_mod_cast le_of_lt h
          omega
    have hw : saveConvert q = ratTrunc (q * 32767) := by
      unfold saveConvert wrapInt16
      have h1t : (0 : ℤ) ≤ ratTrunc (q * 32767) + 32768 := by omega
      have h2t : ratTrunc (q * 32767) + 32768 < 65536 := by omega
      rw [Int.emod_eq_of_lt h1t h2t]
      omega
    exact ⟨hw, hw ▸ htr.1, hw ▸ htr.2⟩
  have hover : saveConvert (5 / 4) = -24578 := by
    norm_num [saveConvert, ratTrunc, wrapInt16]
  have hnear : nearestInt16 ((5 / 4) * 32767) = 32767 := by
    norm_num [nearestInt16, round_eq, min_def, max_def]
  refine ⟨hmain, hover, hnear, ?_⟩
  rw [hover, hnear]
  decide

/-- Witness for C10 (amended) at the in-range sample 1/2. -/
theorem save_wav_conversion_witness :
    (-1 : ℚ) ≤ 1 / 2 ∧ saveConvert (1 / 2) = ratTrunc ((1 / 2) * 32767) :=
  ⟨by norm_num, (save_wav_conversion.1 (1 / 2) (by norm_num) (by norm_num)).1⟩

end FT8Sniper
